import Mathlib

/-!
Verification of the go-waitfor/waitfor library: a shallow embedding of its
registry (scheme-keyed dispatch to resource factories), its options model,
and its test-and-retry orchestrator, together with theorems settling the
spec's claims about them.

Conventions of the embedding:
* Go `error` values are modelled by `GoError`.  `GoError.sentinel` models a
  package-level `errors.New` variable (identity given by its name),
  `GoError.errorf` models an error built by `fmt.Errorf`/`errors.New` without
  a `%w` verb (no cause), and `GoError.wrap` models `fmt.Errorf` with a
  leading `%w` verb (message plus a cause available to `errors.Unwrap`).
* A resource's readiness check (`Resource.Test` in Go) is modelled as a
  function from the invocation index to the result of that invocation:
  `none` is success, `some e` is failure with error `e`.
* The cancellation context is modelled as a predicate `ctxDone : Nat → Bool`
  on attempt indices: `ctxDone i` means the context is already cancelled or
  expired when attempt `i` would start (this covers both the check before an
  attempt and the check at the preceding wait boundary).
* `url.Parse` is Go standard-library code external to this repository, so the
  functions that call it are parameterised by an arbitrary parse function
  `parse : String → Except GoError URL`.
* Real time (sleep durations) is not modelled; the retry model tracks only
  the sequence of attempts, their outcomes and cancellation.
-/

/-- A Go error value. -/
inductive GoError where
  /-- A package-level `errors.New` variable; `name` models its identity. -/
  | sentinel (name : String) (msg : String)
  /-- An error whose message is built by formatting, with no cause attached. -/
  | errorf (msg : String)
  /-- Models `fmt.Errorf("%w: ...", cause, ...)`: a message plus an unwrappable cause. -/
  | wrap (msg : String) (cause : GoError)
deriving DecidableEq, Repr

/-- The `Error()` method: the error's message text. -/
def GoError.msg : GoError → String
  | .sentinel _ m => m
  | .errorf m => m
  | .wrap m _ => m

/-- Models `errors.Unwrap`: only errors built with a `%w` verb expose a cause. -/
def GoError.unwrap : GoError → Option GoError
  | .wrap _ c => some c
  | _ => none

/-- Models `errors.Is`: equality against the target anywhere along the unwrap chain. -/
def errorsIs : GoError → GoError → Bool
  | e, target =>
    if e = target then true
    else match e with
      | .wrap _ c => errorsIs c target
      | _ => false

/-- Models `fmt.Errorf("%w: %s", cause, s)`: message `cause.msg ++ ": " ++ s`, wrapping `cause`. -/
def mkWrap (cause : GoError) (s : String) : GoError :=
  .wrap (cause.msg ++ ": " ++ s) cause

/-- Models `ErrWait` from errors.go. -/
def ErrWait : GoError :=
  .sentinel "ErrWait" "failed to wait for resource availability"

/-- Models `ErrInvalidArgument` from errors.go. -/
def ErrInvalidArgument : GoError :=
  .sentinel "ErrInvalidArgument" "invalid argument"

/-- Models `ErrResourceAlreadyRegistered` from errors.go. -/
def ErrResourceAlreadyRegistered : GoError :=
  .sentinel "ErrResourceAlreadyRegistered" "resource is already registered with a given scheme"

/-- Models `ErrResourceNotFound` from errors.go. -/
def ErrResourceNotFound : GoError :=
  .sentinel "ErrResourceNotFound" "resource with a given scheme is not found"

/-- Models `context.Canceled` from the Go standard library. -/
def CtxCanceled : GoError := .sentinel "context.Canceled" "context canceled"

/-- A parsed URL; only the scheme is inspected by this package, the rest of
the URL is opaque to it. -/
structure URL where
  scheme : String
  rest : String
deriving DecidableEq, Repr

/-- A resource's readiness check: the result of its `i`-th invocation
(`none` = ready, `some e` = not ready with error `e`). -/
abbrev Resource := Nat → Option GoError

/-- Models `ResourceFactory`: builds a `Resource` from a parsed URL, or fails. -/
abbrev ResourceFactory := URL → Except GoError Resource

/-- Models `ResourceConfig` from registry.go: a factory together with the schemes it handles. -/
structure ResourceConfig where
  scheme : List String
  factory : ResourceFactory

/-- A Go `map[string]ResourceFactory`, modelled as an association list whose
keys are kept unique by the insertion operation. -/
abbrev FactoryMap := List (String × ResourceFactory)

/-- Go map assignment `m[k] = v`: overwrites any existing binding of `k`. -/
def mapSet (m : FactoryMap) (k : String) (v : ResourceFactory) : FactoryMap :=
  m.filter (fun p => p.1 ≠ k) ++ [(k, v)]

/-- Models `Registry` from registry.go. -/
structure Registry where
  resources : FactoryMap

/-- Models `newRegistry` from registry.go: populates the map by plain assignment,
one binding per scheme of each config, in order. -/
def newRegistry (configs : List ResourceConfig) : Registry :=
  ⟨configs.foldl (fun m c => c.scheme.foldl (fun m s => mapSet m s c.factory) m) []⟩

/-- Models `strings.TrimSpace` from the Go standard library (external to this
repository), modelled as removal of leading and trailing whitespace. -/
def trimSpace (s : String) : String :=
  ⟨((s.data.dropWhile Char.isWhitespace).reverse.dropWhile Char.isWhitespace).reverse⟩

/-- Models `Registry.Register` from registry.go: trims the scheme, rejects a scheme
that is already bound, otherwise binds it. -/
def Registry.Register (r : Registry) (scheme : String) (factory : ResourceFactory) :
    Except GoError Registry :=
  let scheme := trimSpace scheme
  if (r.resources.lookup scheme).isSome then
    .error (mkWrap ErrResourceAlreadyRegistered scheme)
  else
    .ok ⟨mapSet r.resources scheme factory⟩

/-- Models `Registry.Resolve` from registry.go: parse the location, look up the
scheme's factory, and run the factory on the parsed URL. -/
def Registry.Resolve (r : Registry) (parse : String → Except GoError URL)
    (location : String) : Except GoError Resource :=
  match parse location with
  | .error e => .error e
  | .ok u =>
    match r.resources.lookup u.scheme with
    | none => .error (mkWrap ErrResourceNotFound u.scheme)
    | some rf => rf u

/-- Models `Registry.List` from registry.go: the bound schemes. -/
def Registry.ListSchemes (r : Registry) : List String :=
  r.resources.map (·.1)

/-- One second as a Go `time.Duration` (nanoseconds). -/
def nsPerSec : Nat := 1000000000

/-- Models `Options` from options.go: durations in nanoseconds, as Go's `time.Duration`. -/
structure Options where
  interval : Nat
  maxInterval : Nat
  attempts : Nat
deriving DecidableEq, Repr

/-- The functional option type (`Option` in options.go; renamed here because
`Option` is taken by Lean's core library). -/
abbrev OptionSetter := Options → Options

/-- Models `newOptions` from options.go: defaults interval 5s, maxInterval 60s,
attempts 5, then the setters applied in order. -/
def newOptions (setters : List OptionSetter) : Options :=
  setters.foldl (fun o s => s o) ⟨5 * nsPerSec, 60 * nsPerSec, 5⟩

/-- Models `WithInterval` from options.go: sets the initial interval, given in seconds. -/
def WithInterval (interval : Nat) : OptionSetter :=
  fun opts => { opts with interval := interval * nsPerSec }

/-- Models `WithMaxInterval` from options.go: sets the maximum interval, given in seconds. -/
def WithMaxInterval (interval : Nat) : OptionSetter :=
  fun opts => { opts with maxInterval := interval * nsPerSec }

/-- Models `WithAttempts` from options.go: sets the maximum number of retry attempts;
its documentation states that 0 means unlimited attempts. -/
def WithAttempts (attempts : Nat) : OptionSetter :=
  fun opts => { opts with attempts := attempts }

/-- The retry configuration handed to the retry engine. -/
structure ExponentialBackOff where
  initialInterval : Nat
  maxInterval : Nat
  multiplier : ℚ
  randomizationFactor : ℚ
deriving DecidableEq, Repr

/-- Modelled from the spec: `backoff.NewExponentialBackOff()` belongs to the
third-party dependency github.com/cenkalti/backoff, whose code is not among
this repository's sources; the spec gives its retry-policy defaults as
multiplier 1.5 and jitter (randomization) factor 0.5.  `testInternal` then
overwrites `InitialInterval` and `MaxInterval` from the options, so this is
the configuration in effect for a given `Options` value. -/
def effectiveBackOff (opts : Options) : ExponentialBackOff :=
  ⟨opts.interval, opts.maxInterval, 3 / 2, 1 / 2⟩

/-- Terminal outcome of one location's retry loop, with the number of times
the readiness check was invoked. -/
inductive RetryOutcome where
  | success (invocations : Nat)
  | failure (err : GoError) (invocations : Nat)
  | cancelled (invocations : Nat)
deriving DecidableEq, Repr

/-- Modelled from the spec: `backoff.Retry` under
`backoff.WithContext(backoff.WithMaxRetries(b, attempts), ctx)` belongs to the
third-party dependency github.com/cenkalti/backoff, whose code is not among
this repository's sources.  Per the spec's retry algorithm: attempt 1 runs
immediately; on failure the loop retries unless `maxAttempts` attempts have
already been made or the context is cancelled/expired; cancellation is
checked before each attempt and at each wait boundary; per `WithAttempts`'s
documentation in options.go, an attempt cap of 0 means unlimited attempts.
`i` is the index of the next attempt; `fuel` only bounds the recursion of the
model, a `none` result meaning the loop is still running after consuming the
fuel. -/
def retryAux (check : Resource) (ctxDone : Nat → Bool) (maxAttempts : Nat) :
    Nat → Nat → Option RetryOutcome
  | 0, _ => none
  | fuel + 1, i =>
    if ctxDone i then some (.cancelled i)
    else
      match check i with
      | none => some (.success (i + 1))
      | some e =>
        if maxAttempts ≠ 0 ∧ maxAttempts ≤ i + 1 then some (.failure e (i + 1))
        else retryAux check ctxDone maxAttempts fuel (i + 1)

/-- The retry loop started at attempt 0. -/
def retryRun (check : Resource) (ctxDone : Nat → Bool) (maxAttempts fuel : Nat) :
    Option RetryOutcome :=
  retryAux check ctxDone maxAttempts fuel 0

/-- Models `Runner` from waitfor.go. -/
structure Runner where
  registry : Registry

/-- Models `New` from waitfor.go. -/
def New (configurators : List ResourceConfig) : Runner :=
  ⟨newRegistry configurators⟩

/-- Models `Runner.Resources` from waitfor.go. -/
def Runner.Resources (r : Runner) : Registry := r.registry

/-- Terminal result of one location inside `Test`: its error, if any, and how
many times its readiness check was invoked. -/
structure TestResult where
  error : Option GoError
  invocations : Nat
deriving DecidableEq, Repr

/-- Models `Runner.testInternal` from waitfor.go: resolve the location (a resolution
error is returned at once, with the check never invoked), then run the
resource's check under the retry engine. -/
def Runner.testInternal (r : Runner) (parse : String → Except GoError URL)
    (ctxDone : Nat → Bool) (resource : String) (opts : Options) (fuel : Nat) :
    Option TestResult :=
  match r.registry.Resolve parse resource with
  | .error e => some ⟨some e, 0⟩
  | .ok rsc =>
    match retryRun rsc ctxDone opts.attempts fuel with
    | none => none
    | some (.success n) => some ⟨none, n⟩
    | some (.failure e n) => some ⟨some e, n⟩
    | some (.cancelled n) => some ⟨some CtxCanceled, n⟩

/-- Models `Runner.testAllInternal` from waitfor.go: one evaluation per location, all
results delivered on one channel, which is closed after every evaluation has
reached a terminal state.  The model fixes the channel's arrival order to the
input order (the claims proved here do not depend on arrival order); `none`
means some location's loop is still running. -/
def Runner.testAllInternal (r : Runner) (parse : String → Except GoError URL)
    (ctxDone : Nat → Bool) (resources : List String) (opts : Options)
    (fuel : Nat) : Option (List TestResult) :=
  match resources with
  | [] => some []
  | rsc :: rest =>
    match r.testInternal parse ctxDone rsc opts fuel with
    | none => none
    | some res =>
      match r.testAllInternal parse ctxDone rest opts fuel with
      | none => none
      | some ress => some (res :: ress)

/-- The body of `Test`'s aggregation loop: append `err.Error() + ";"` for
every non-nil error received from the channel. -/
def buffAppend (acc : String) (res : TestResult) : String :=
  match res.error with
  | some e => acc ++ (e.msg ++ ";")
  | none => acc

/-- The final contents of `Test`'s buffer. -/
def buffOf (results : List TestResult) : String :=
  results.foldl buffAppend ""

/-- Models `Runner.Test` from waitfor.go: build the options, evaluate every location,
and either succeed (empty buffer) or return the aggregate error
`fmt.Errorf("%s: %s", ErrWait, buff)` — `%s`, not `%w`, so nothing is wrapped. -/
def Runner.Test (r : Runner) (parse : String → Except GoError URL)
    (ctxDone : Nat → Bool) (resources : List String)
    (setters : List OptionSetter) (fuel : Nat) : Option (Option GoError) :=
  match r.testAllInternal parse ctxDone resources (newOptions setters) fuel with
  | none => none
  | some results =>
    let buff := buffOf results
    if buff = "" then some none
    else some (some (.errorf (ErrWait.msg ++ ": " ++ buff)))

/-- Models `Program` from waitfor.go. -/
structure Program where
  executable : String
  args : List String
  resources : List String

/-- Result of `exec.Command(...).CombinedOutput()`: the combined output and
the execution error, if any. -/
structure ExecResult where
  output : String
  error : Option GoError

/-- Result of `Runner.Run`: the returned output and error, plus whether the
executable was started (`cmd.CombinedOutput()` reached). -/
structure RunResult where
  output : Option String
  error : Option GoError
  executed : Bool

/-- Models `Runner.Run` from waitfor.go: run `Test` on the program's resources; on
failure return it with no output and without starting the executable;
otherwise execute the program and return `CombinedOutput()`'s result as-is.
Process execution is external, so it is a parameter `runExec`. -/
def Runner.Run (r : Runner) (parse : String → Except GoError URL)
    (ctxDone : Nat → Bool) (program : Program) (setters : List OptionSetter)
    (runExec : String → List String → ExecResult) (fuel : Nat) :
    Option RunResult :=
  match r.Test parse ctxDone program.resources setters fuel with
  | none => none
  | some (some err) => some ⟨none, some err, false⟩
  | some none =>
    let res := runExec program.executable program.args
    some ⟨some res.output, res.error, true⟩

/-! ## Helper lemmas about the map model -/

/-- Filtering out a key makes lookup of that key fail. -/
theorem lookup_filter_ne_self (m : FactoryMap) (k : String) :
    (m.filter (fun p => p.1 ≠ k)).lookup k = none := by
  rw [List.lookup_eq_none_iff]
  intro p hp
  have h := List.of_mem_filter hp
  simp only [decide_eq_true_eq] at h
  simp [bne_iff_ne]
  exact fun hk => h hk.symm

/-- Go map assignment followed by lookup of the same key. -/
theorem lookup_mapSet_self (m : FactoryMap) (k : String) (v : ResourceFactory) :
    (mapSet m k v).lookup k = some v := by
  rw [mapSet, List.lookup_append, lookup_filter_ne_self]
  simp

/-- Go map assignment keeps the keys unique. -/
theorem keys_mapSet_nodup (m : FactoryMap) (k : String) (v : ResourceFactory)
    (h : (m.map Prod.fst).Nodup) : ((mapSet m k v).map Prod.fst).Nodup := by
  simp only [mapSet, List.map_append]
  apply List.Nodup.append
  · exact ((List.filter_sublist m).map Prod.fst).nodup h
  · simp
  · intro a ha hb
    simp only [List.map_cons, List.map_nil, List.mem_cons, List.not_mem_nil, or_false] at hb
    subst hb
    obtain ⟨p, hp, rfl⟩ := List.mem_map.mp ha
    have := List.of_mem_filter hp
    simp only [decide_eq_true_eq] at this
    exact this rfl

/-- The keys of a registry built by `newRegistry` are unique. -/
theorem newRegistry_keys_nodup (configs : List ResourceConfig) :
    ((newRegistry configs).resources.map Prod.fst).Nodup := by
  suffices h : ∀ (m : FactoryMap), (m.map Prod.fst).Nodup →
      ((configs.foldl (fun m c => c.scheme.foldl (fun m s => mapSet m s c.factory) m) m).map
        Prod.fst).Nodup by
    exact h [] (by simp)
  induction configs with
  | nil => intro m hm; exact hm
  | cons c rest ih =>
    intro m hm
    rw [List.foldl_cons]
    apply ih
    clear ih
    induction c.scheme generalizing m with
    | nil => exact hm
    | cons s ss ihs => exact ihs _ (keys_mapSet_nodup m s c.factory hm)

/-! ## Claim theorems: registry -/

/-- A factory used in the C3 counterexample. -/
def cfgF1 : ResourceFactory := fun _ => .error (.errorf "factory one")

/-- Another factory, observably different from `cfgF1`. -/
def cfgF2 : ResourceFactory := fun _ => .error (.errorf "factory two")

/-- A parse function mapping every location to scheme "s". -/
def parseS : String → Except GoError URL := fun _ => .ok ⟨"s", ""⟩

/-- C3 counterexample: populating a registry from two `ResourceConfig` entries
whose scheme lists overlap is NOT rejected with an error — `newRegistry` has
no error path at all — and the first entry's constructor is silently
overwritten: resolution of scheme "s" afterwards behaves as the second
factory, although the first factory behaves differently on the same URL. -/
theorem c3_overlap_counterexample :
    Registry.Resolve (newRegistry [⟨["s"], cfgF1⟩, ⟨["s"], cfgF2⟩]) parseS "s://x"
      = .error (.errorf "factory two") ∧
    cfgF1 ⟨"s", ""⟩ = .error (.errorf "factory one") := by
  constructor <;> rfl

/-- C3 (amended): within a `Registry`, at most one constructor is bound per
scheme at any time (registry keys stay unique under both construction and
registration), and `Register` rejects a duplicate scheme with an error,
leaving the registry unchanged; however, the initial population performed by
`newRegistry` does not reject overlapping scheme lists — a later config's
factory silently overwrites an earlier one's for the shared scheme. -/
theorem c3_registry_invariant :
    (∀ configs : List ResourceConfig, ((newRegistry configs).resources.map Prod.fst).Nodup) ∧
    (∀ (r : Registry) (s : String) (f : ResourceFactory),
        (r.resources.lookup (trimSpace s)).isSome →
        r.Register s f = .error (mkWrap ErrResourceAlreadyRegistered (trimSpace s))) ∧
    (∀ (r : Registry) (s : String) (f : ResourceFactory) (r1 : Registry),
        (r.resources.map Prod.fst).Nodup → r.Register s f = .ok r1 →
        (r1.resources.map Prod.fst).Nodup ∧
          r1.resources.lookup (trimSpace s) = some f) ∧
    (∀ (s : String) (f1 f2 : ResourceFactory),
        (newRegistry [⟨[s], f1⟩, ⟨[s], f2⟩]).resources.lookup s = some f2) := by
  refine ⟨newRegistry_keys_nodup, ?_, ?_, ?_⟩
  · intro r s f h
    simp only [Registry.Register, h, if_true]
  · intro r s f r1 hnd hok
    simp only [Registry.Register] at hok
    split at hok
    · exact absurd hok (by simp)
    · injection hok with h2
      subst h2
      exact ⟨keys_mapSet_nodup _ _ _ hnd, lookup_mapSet_self _ _ _⟩
  · intro s f1 f2
    show ((mapSet (mapSet [] s f1) s f2).lookup s) = some f2
    exact lookup_mapSet_self _ _ _

/-- C3 amended witness: concrete instantiations of the hypotheses of
`c3_registry_invariant`. -/
theorem c3_registry_invariant_witness :
    Registry.Register ⟨[("s", cfgF1)]⟩ "s" cfgF2
      = .error (mkWrap ErrResourceAlreadyRegistered (trimSpace "s")) ∧
    ((⟨mapSet [] "s" cfgF1⟩ : Registry).resources.map Prod.fst).Nodup ∧
    (⟨mapSet [] "s" cfgF1⟩ : Registry).resources.lookup (trimSpace "s") = some cfgF1 := by
  refine ⟨?_, ?_⟩
  · exact c3_registry_invariant.2.1 ⟨[("s", cfgF1)]⟩ "s" cfgF2 (by rfl)
  · exact c3_registry_invariant.2.2.1 ⟨[]⟩ "s" cfgF1 ⟨mapSet [] "s" cfgF1⟩
      (by simp) (by rfl)

/-- C4: registering two schemes that are equal after whitespace trimming —
the first call succeeds, the second fails with the duplicate-registration
error, and the first constructor stays bound, so resolution of that scheme
still uses it. -/
theorem c4_duplicate_register (reg : Registry) (s1 s2 : String)
    (f1 f2 : ResourceFactory)
    (heq : trimSpace s1 = trimSpace s2)
    (hfree : reg.resources.lookup (trimSpace s1) = none) :
    ∃ reg1 : Registry,
      reg.Register s1 f1 = .ok reg1 ∧
      reg1.Register s2 f2 = .error (mkWrap ErrResourceAlreadyRegistered (trimSpace s2)) ∧
      reg1.resources.lookup (trimSpace s1) = some f1 ∧
      (∀ (parse : String → Except GoError URL) (loc : String) (u : URL),
          parse loc = .ok u → u.scheme = trimSpace s1 →
          reg1.Resolve parse loc = f1 u) := by
  refine ⟨⟨mapSet reg.resources (trimSpace s1) f1⟩, ?_, ?_, ?_, ?_⟩
  · simp only [Registry.Register, hfree]
    simp
  · have hl : (mapSet reg.resources (trimSpace s1) f1).lookup (trimSpace s2) = some f1 := by
      rw [← heq]; exact lookup_mapSet_self _ _ _
    simp only [Registry.Register, hl]
    simp
  · exact lookup_mapSet_self _ _ _
  · intro parse loc u hp hs
    simp only [Registry.Resolve, hp, hs, lookup_mapSet_self]

/-- C4 witness: `c4_duplicate_register` at schemes " s" and "s " on the empty
registry. -/
theorem c4_duplicate_register_witness :
    ∃ reg1 : Registry,
      Registry.Register ⟨[]⟩ " s" cfgF1 = .ok reg1 ∧
      reg1.Register "s " cfgF2 = .error (mkWrap ErrResourceAlreadyRegistered (trimSpace "s ")) ∧
      reg1.resources.lookup (trimSpace " s") = some cfgF1 ∧
      (∀ (parse : String → Except GoError URL) (loc : String) (u : URL),
          parse loc = .ok u → u.scheme = trimSpace " s" →
          reg1.Resolve parse loc = cfgF1 u) :=
  c4_duplicate_register ⟨[]⟩ " s" "s " cfgF1 cfgF2 (by rfl) (by rfl)

/-- C5: resolution failures are immediate and never retried: a parse error is
returned as-is, an unbound scheme yields the not-found error carrying the
offending scheme, a factory's own failure propagates unchanged, and inside
`testInternal` any resolution failure is the location's terminal result with
the readiness check never invoked (zero invocations). -/
theorem c5_resolution_immediate (reg : Registry)
    (parse : String → Except GoError URL) (loc : String) :
    (∀ e, parse loc = .error e → reg.Resolve parse loc = .error e) ∧
    (∀ u, parse loc = .ok u → reg.resources.lookup u.scheme = none →
        reg.Resolve parse loc = .error (mkWrap ErrResourceNotFound u.scheme)) ∧
    (∀ u f, parse loc = .ok u → reg.resources.lookup u.scheme = some f →
        reg.Resolve parse loc = f u) ∧
    (∀ (ctxDone : Nat → Bool) (opts : Options) (fuel : Nat) e,
        reg.Resolve parse loc = .error e →
        Runner.testInternal ⟨reg⟩ parse ctxDone loc opts fuel = some ⟨some e, 0⟩) := by
  refine ⟨?_, ?_, ?_, ?_⟩
  · intro e hp
    simp only [Registry.Resolve, hp]
  · intro u hp hl
    simp only [Registry.Resolve, hp, hl]
  · intro u f hp hl
    simp only [Registry.Resolve, hp, hl]
  · intro ctxDone opts fuel e hres
    simp only [Runner.testInternal, hres]

/-- A parse function that always fails, for witnesses. -/
def parseBad : String → Except GoError URL := fun _ => .error (.errorf "bad url")

/-- C5 witness: `c5_resolution_immediate` at concrete registries, parse
functions and locations. -/
theorem c5_resolution_immediate_witness :
    Registry.Resolve (⟨[]⟩ : Registry) parseBad "x" = .error (.errorf "bad url") ∧
    Registry.Resolve (⟨[]⟩ : Registry) parseS "s://x"
      = .error (mkWrap ErrResourceNotFound "s") ∧
    Registry.Resolve (⟨[("s", cfgF1)]⟩ : Registry) parseS "s://x"
      = .error (.errorf "factory one") ∧
    Runner.testInternal ⟨⟨[]⟩⟩ parseBad (fun _ => false) "x" (newOptions []) 5
      = some ⟨some (.errorf "bad url"), 0⟩ := by
  refine ⟨?_, ?_, ?_, ?_⟩
  · exact (c5_resolution_immediate ⟨[]⟩ parseBad "x").1 _ rfl
  · exact (c5_resolution_immediate ⟨[]⟩ parseS "s://x").2.1 ⟨"s", ""⟩ rfl rfl
  · exact ((c5_resolution_immediate ⟨[("s", cfgF1)]⟩ parseS "s://x").2.2.1
      ⟨"s", ""⟩ cfgF1 rfl rfl).trans rfl
  · exact (c5_resolution_immediate ⟨[]⟩ parseBad "x").2.2.2 (fun _ => false)
      (newOptions []) 5 _ ((c5_resolution_immediate ⟨[]⟩ parseBad "x").1 _ rfl)

/-- C7: `Test` on the empty location list succeeds, and the per-location
evaluation produces the empty result list — no resource is constructed and
no readiness check is attempted. -/
theorem c7_empty_locations (r : Runner) (parse : String → Except GoError URL)
    (ctxDone : Nat → Bool) (setters : List OptionSetter) (fuel : Nat) :
    r.Test parse ctxDone [] setters fuel = some none ∧
    r.testAllInternal parse ctxDone [] (newOptions setters) fuel = some [] :=
  ⟨rfl, rfl⟩

/-- C8: with no setters the options are interval 5s, maxInterval 60s,
attempts 5, and the retry configuration in effect adds multiplier 1.5 and
randomization (jitter) factor 0.5; each setter overrides exactly its own
field of an arbitrary options value and leaves the others untouched. -/
theorem c8_default_options :
    newOptions [] = ⟨5 * nsPerSec, 60 * nsPerSec, 5⟩ ∧
    effectiveBackOff (newOptions []) = ⟨5 * nsPerSec, 60 * nsPerSec, 3 / 2, 1 / 2⟩ ∧
    (∀ (n : Nat) (opts : Options),
        WithInterval n opts = { opts with interval := n * nsPerSec }) ∧
    (∀ (n : Nat) (opts : Options),
        WithMaxInterval n opts = { opts with maxInterval := n * nsPerSec }) ∧
    (∀ (n : Nat) (opts : Options),
        WithAttempts n opts = { opts with attempts := n }) :=
  ⟨rfl, rfl, fun _ _ => rfl, fun _ _ => rfl, fun _ _ => rfl⟩

/-! ## Lemmas about the retry loop -/

/-- With an always-failing check, a live context and a positive attempt cap
`A`, the retry loop stops by attempt exhaustion after exactly `A`
invocations, reporting the last observed failure. -/
theorem retryAux_always_fail (check : Resource) (m : Nat → GoError)
    (hfail : ∀ i, check i = some (m i)) (A : Nat) (hA : 1 ≤ A) :
    ∀ (fuel i : Nat), i < A → A ≤ i + fuel →
      retryAux check (fun _ => false) A fuel i = some (.failure (m (A - 1)) A) := by
  intro fuel
  induction fuel with
  | zero => intro i hi hle; omega
  | succ f ih =>
    intro i hi hle
    simp only [retryAux, hfail]
    rw [if_neg (by simp)]
    by_cases hstop : A ≤ i + 1
    · rw [if_pos ⟨by omega, hstop⟩]
      have h1 : i + 1 = A := by omega
      have h2 : i = A - 1 := by omega
      rw [h1, h2]
    · rw [if_neg (by omega : ¬(A ≠ 0 ∧ A ≤ i + 1))]
      exact ih (i + 1) (by omega) (by omega)

/-- With an attempt cap of 0 the loop can never stop by attempt exhaustion. -/
theorem retryAux_zero_no_exhaustion (check : Resource) (ctxDone : Nat → Bool) :
    ∀ (fuel i : Nat) (e : GoError) (n : Nat),
      retryAux check ctxDone 0 fuel i ≠ some (.failure e n) := by
  intro fuel
  induction fuel with
  | zero => intro i e n h; exact Option.noConfusion h
  | succ f ih =>
    intro i e n h
    simp only [retryAux] at h
    by_cases hc : ctxDone i = true
    · rw [if_pos hc] at h
      simp at h
    · rw [if_neg hc] at h
      cases hcheck : check i with
      | none => rw [hcheck] at h; simp at h
      | some e2 =>
        rw [hcheck] at h
        have h2 : retryAux check ctxDone 0 f (i + 1) = some (.failure e n) := by
          simpa using h
        exact ih (i + 1) e n h2

/-- With an attempt cap of 0, an always-failing check and a live context, the
loop is still running after any amount of fuel. -/
theorem retryAux_zero_never_stops (check : Resource)
    (hfail : ∀ i, (check i).isSome) :
    ∀ (fuel i : Nat), retryAux check (fun _ => false) 0 fuel i = none := by
  intro fuel
  induction fuel with
  | zero => intro i; rfl
  | succ f ih =>
    intro i
    obtain ⟨e, he⟩ := Option.isSome_iff_exists.mp (hfail i)
    simp only [retryAux, he]
    rw [if_neg (by simp)]
    rw [if_neg (by simp)]
    exact ih (i + 1)

/-- With an attempt cap of 0 and an always-failing check, a context that
becomes cancelled at step `k` terminates the loop there, after exactly `k`
invocations. -/
theorem retryAux_cancelled (check : Resource) (k : Nat)
    (hfail : ∀ i, (check i).isSome) :
    ∀ (fuel i : Nat), i ≤ k → k < i + fuel →
      retryAux check (fun i => decide (k ≤ i)) 0 fuel i = some (.cancelled k) := by
  intro fuel
  induction fuel with
  | zero => intro i h1 h2; omega
  | succ f ih =>
    intro i h1 h2
    by_cases hik : i = k
    · subst hik
      simp only [retryAux]
      rw [if_pos (by simp)]
    · obtain ⟨e, he⟩ := Option.isSome_iff_exists.mp (hfail i)
      simp only [retryAux, he]
      rw [if_neg (by simp; omega)]
      rw [if_neg (by simp)]
      exact ih (i + 1) (by omega) (by omega)

/-! ## Claim theorems: retry behaviour -/

/-- C1 (retry engine modelled from the spec): for a single location resolving
to a resource whose check fails on every invocation, with `WithAttempts A`
(`A ≥ 1`) and a live context, the location's evaluation terminates with a
failure after exactly `A` invocations of the check, and `Test` returns the
aggregate failure. -/
theorem c1_always_failing (reg : Registry) (parse : String → Except GoError URL)
    (loc : String) (check : Resource) (m : Nat → GoError) (A : Nat)
    (hA : 1 ≤ A)
    (hres : reg.Resolve parse loc = .ok check)
    (hfail : ∀ i, check i = some (m i)) :
    Runner.testAllInternal ⟨reg⟩ parse (fun _ => false) [loc]
        (newOptions [WithAttempts A]) A = some [⟨some (m (A - 1)), A⟩] ∧
    Runner.Test ⟨reg⟩ parse (fun _ => false) [loc] [WithAttempts A] A
      = some (some (.errorf (ErrWait.msg ++ ": " ++ ((m (A - 1)).msg ++ ";")))) := by
  have hattempts : (newOptions [WithAttempts A]).attempts = A := rfl
  have hint : Runner.testInternal ⟨reg⟩ parse (fun _ => false) loc
      (newOptions [WithAttempts A]) A = some ⟨some (m (A - 1)), A⟩ := by
    simp only [Runner.testInternal, hres, retryRun, hattempts]
    rw [retryAux_always_fail check m hfail A hA A 0 (by omega) (by omega)]
  have hall : Runner.testAllInternal ⟨reg⟩ parse (fun _ => false) [loc]
      (newOptions [WithAttempts A]) A = some [⟨some (m (A - 1)), A⟩] := by
    simp only [Runner.testAllInternal, hint]
  refine ⟨hall, ?_⟩
  simp only [Runner.Test, hall]
  rw [if_neg ?hne]
  case hne =>
    intro hbad
    have hb2 : ((m (A - 1)).msg ++ ";") = "" := hbad
    have hlen := congrArg String.length hb2
    rw [String.length_append] at hlen
    have hsemi : (";" : String).length = 1 := rfl
    have h0 : ("" : String).length = 0 := rfl
    rw [hsemi, h0] at hlen
    omega
  rfl

/-- C9 (retry engine modelled from the spec; `WithAttempts`'s documentation in
options.go states that 0 means unlimited attempts): `WithAttempts 0` sets the
cap to 0 rather than the default 5; with cap 0 the loop never stops by
attempt exhaustion; an always-failing resource under a live context is still
being retried after any amount of fuel; and cancellation of the context at
step `k` terminates the evaluation there. -/
theorem c9_zero_attempts_unlimited :
    (newOptions [WithAttempts 0]).attempts = 0 ∧
    (∀ (check : Resource) (ctxDone : Nat → Bool) (fuel i : Nat) (e : GoError) (n : Nat),
        retryAux check ctxDone 0 fuel i ≠ some (.failure e n)) ∧
    (∀ (reg : Registry) (parse : String → Except GoError URL) (loc : String)
        (check : Resource) (fuel : Nat),
        reg.Resolve parse loc = .ok check → (∀ i, (check i).isSome) →
        Runner.testInternal ⟨reg⟩ parse (fun _ => false) loc
          (newOptions [WithAttempts 0]) fuel = none) ∧
    (∀ (reg : Registry) (parse : String → Except GoError URL) (loc : String)
        (check : Resource) (k : Nat),
        reg.Resolve parse loc = .ok check → (∀ i, (check i).isSome) →
        Runner.testInternal ⟨reg⟩ parse (fun i => decide (k ≤ i)) loc
          (newOptions [WithAttempts 0]) (k + 1) = some ⟨some CtxCanceled, k⟩) := by
  refine ⟨rfl, retryAux_zero_no_exhaustion, ?_, ?_⟩
  · intro reg parse loc check fuel hres hfail
    simp only [Runner.testInternal, hres, retryRun]
    rw [show (newOptions [WithAttempts 0]).attempts = 0 from rfl]
    rw [retryAux_zero_never_stops check hfail fuel 0]
  · intro reg parse loc check k hres hfail
    simp only [Runner.testInternal, hres, retryRun]
    rw [show (newOptions [WithAttempts 0]).attempts = 0 from rfl]
    rw [retryAux_cancelled check k hfail (k + 1) 0 (by omega) (by omega)]

/-! ## Lemmas about the aggregation buffer -/

/-- Folding the buffer body from any accumulator prepends the accumulator. -/
theorem foldl_buffAppend_acc (l : List TestResult) (acc : String) :
    l.foldl buffAppend acc = acc ++ l.foldl buffAppend "" := by
  induction l generalizing acc with
  | nil => simp
  | cons r t ih =>
    rw [List.foldl_cons, List.foldl_cons, ih (buffAppend acc r), ih (buffAppend "" r)]
    cases h : r.error with
    | none => simp [buffAppend, h]
    | some e => simp [buffAppend, h, String.append_assoc]

/-- Unfolding the buffer one result at a time. -/
theorem buffOf_cons (r : TestResult) (t : List TestResult) :
    buffOf (r :: t) = buffAppend "" r ++ buffOf t := by
  rw [buffOf, List.foldl_cons, foldl_buffAppend_acc]
  rfl

/-- The in-order concatenation of `msg ++ ";"` over a list of errors. -/
def joinMsgs (errs : List GoError) : String :=
  errs.foldr (fun e acc => (e.msg ++ ";") ++ acc) ""

/-- The buffer is exactly the concatenation of every non-nil failure message,
each terminated by a semicolon, in order. -/
theorem buffOf_eq_joinMsgs (l : List TestResult) :
    buffOf l = joinMsgs (l.filterMap (·.error)) := by
  induction l with
  | nil => rfl
  | cons r t ih =>
    rw [buffOf_cons, ih]
    cases h : r.error with
    | none => simp [buffAppend, h, List.filterMap_cons]
    | some e => simp [buffAppend, h, List.filterMap_cons, joinMsgs]

/-- The buffer is empty exactly when no location failed. -/
theorem buffOf_empty_iff {l : List TestResult} :
    buffOf l = "" ↔ ∀ r ∈ l, r.error = none := by
  induction l with
  | nil => simp [buffOf]
  | cons r t ih =>
    rw [buffOf_cons]
    cases h : r.error with
    | none =>
      simp only [buffAppend, h, String.empty_append]
      rw [ih]
      constructor
      · intro hall r' hr'
        rcases List.mem_cons.mp hr' with rfl | hm
        · exact h
        · exact hall r' hm
      · intro hall r' hr'
        exact hall r' (List.mem_cons_of_mem _ hr')
    | some e =>
      simp only [buffAppend, h, String.empty_append]
      constructor
      · intro hc
        exfalso
        have hlen := congrArg String.length hc
        rw [String.length_append, String.length_append] at hlen
        have hsemi : (";" : String).length = 1 := rfl
        have h0 : ("" : String).length = 0 := rfl
        rw [hsemi, h0] at hlen
        omega
      · intro hall
        have := hall r (List.mem_cons_self r t)
        rw [h] at this
        exact Option.noConfusion this

/-- Every failing location's message fits strictly inside the buffer. -/
theorem msg_length_le_buffOf (l : List TestResult) (e : GoError)
    (he : ∃ r ∈ l, r.error = some e) :
    e.msg.length + 1 ≤ (buffOf l).length := by
  induction l with
  | nil => simp at he
  | cons r t ih =>
    rw [buffOf_cons, String.length_append]
    rcases he with ⟨r', hr', herr⟩
    rcases List.mem_cons.mp hr' with rfl | hm
    · simp only [buffAppend, herr, String.empty_append, String.length_append]
      have hsemi : (";" : String).length = 1 := rfl
      rw [hsemi]
      omega
    · have := ih ⟨r', hm, herr⟩
      omega

/-! ## Claim theorems: aggregation, run gating -/

/-- C2: after every location's evaluation has reached a terminal state, `Test`
returns success exactly when every location ended without error; otherwise it
returns the single aggregate error whose message is the sentinel's text,
": ", then the message of every non-nil per-location failure, each terminated
by ";", concatenated in order.  (While any location is still running —
`testAllInternal` is `none` — `Test` produces no result either: the
aggregate exists only after all locations are terminal.) -/
theorem c2_aggregate (r : Runner) (parse : String → Except GoError URL)
    (ctxDone : Nat → Bool) (resources : List String) (setters : List OptionSetter)
    (fuel : Nat) (results : List TestResult)
    (h : r.testAllInternal parse ctxDone resources (newOptions setters) fuel
      = some results) :
    (r.Test parse ctxDone resources setters fuel = some none ↔
        ∀ res ∈ results, res.error = none) ∧
    ((∃ res ∈ results, res.error ≠ none) →
        r.Test parse ctxDone resources setters fuel
          = some (some (.errorf (ErrWait.msg ++ ": "
              ++ joinMsgs (results.filterMap (·.error)))))) := by
  constructor
  · simp only [Runner.Test, h]
    by_cases hb : buffOf results = ""
    · rw [if_pos hb]
      constructor
      · intro _
        exact buffOf_empty_iff.mp hb
      · intro _
        rfl
    · rw [if_neg hb]
      constructor
      · intro hcontra
        exact absurd hcontra (by simp)
      · intro hall
        exact absurd (buffOf_empty_iff.mpr hall) hb
  · rintro ⟨res, hres, hne⟩
    have hb : buffOf results ≠ "" := fun hb0 =>
      hne (buffOf_empty_iff.mp hb0 res hres)
    simp only [Runner.Test, h]
    rw [if_neg hb, buffOf_eq_joinMsgs]

/-- A factory whose resources are immediately ready, for witnesses. -/
def okFactory : ResourceFactory := fun _ => .ok (fun _ => none)

/-- A factory whose resources never become ready, for witnesses. -/
def downFactory : ResourceFactory :=
  fun _ => .ok (fun _ => some (.errorf "resource not available"))

/-- A registry binding the schemes "up" and "down", for witnesses. -/
def demoRegistry : Registry := ⟨[("up", okFactory), ("down", downFactory)]⟩

/-- A parse function for the two demo locations, for witnesses. -/
def demoParse : String → Except GoError URL := fun s =>
  if s = "up://a" then .ok ⟨"up", "a"⟩
  else if s = "down://b" then .ok ⟨"down", "b"⟩
  else .error (.errorf "parse error")

/-- C2 witness: `c2_aggregate` on a concrete run mixing one success and one
failure. -/
theorem c2_aggregate_witness :
    Runner.Test ⟨demoRegistry⟩ demoParse (fun _ => false) ["up://a", "down://b"]
        [WithAttempts 1] 1
      = some (some (.errorf (ErrWait.msg ++ ": "
          ++ joinMsgs (([⟨none, 1⟩,
              ⟨some (.errorf "resource not available"), 1⟩] : List TestResult).filterMap
              (·.error))))) :=
  (c2_aggregate ⟨demoRegistry⟩ demoParse (fun _ => false) ["up://a", "down://b"]
      [WithAttempts 1] 1
      [⟨none, 1⟩, ⟨some (.errorf "resource not available"), 1⟩] (by rfl)).2
    ⟨⟨some (.errorf "resource not available"), 1⟩, by simp, by simp⟩

/-- C1 witness: `c1_always_failing` at the demo "down" resource with three
attempts. -/
theorem c1_always_failing_witness :
    Runner.testAllInternal ⟨demoRegistry⟩ demoParse (fun _ => false) ["down://b"]
        (newOptions [WithAttempts 3]) 3
      = some [⟨some (.errorf "resource not available"), 3⟩] ∧
    Runner.Test ⟨demoRegistry⟩ demoParse (fun _ => false) ["down://b"]
        [WithAttempts 3] 3
      = some (some (.errorf (ErrWait.msg ++ ": "
          ++ ("resource not available" ++ ";")))) :=
  c1_always_failing demoRegistry demoParse "down://b"
    (fun _ => some (.errorf "resource not available"))
    (fun _ => .errorf "resource not available") 3 (by omega) (by rfl) (fun _ => rfl)

/-- C9 witness: concrete instantiations of `c9_zero_attempts_unlimited`. -/
theorem c9_zero_attempts_unlimited_witness :
    retryAux (fun _ => some (.errorf "resource not available")) (fun _ => false) 0 5 0
      ≠ some (.failure (.errorf "resource not available") 5) ∧
    Runner.testInternal ⟨demoRegistry⟩ demoParse (fun _ => false) "down://b"
        (newOptions [WithAttempts 0]) 100 = none ∧
    Runner.testInternal ⟨demoRegistry⟩ demoParse (fun i => decide (2 ≤ i)) "down://b"
        (newOptions [WithAttempts 0]) 3 = some ⟨some CtxCanceled, 2⟩ := by
  refine ⟨?_, ?_, ?_⟩
  · exact c9_zero_attempts_unlimited.2.1 _ _ 5 0 _ 5
  · exact c9_zero_attempts_unlimited.2.2.1 demoRegistry demoParse "down://b"
      (fun _ => some (.errorf "resource not available")) 100 (by rfl) (fun _ => rfl)
  · exact c9_zero_attempts_unlimited.2.2.2 demoRegistry demoParse "down://b"
      (fun _ => some (.errorf "resource not available")) 2 (by rfl) (fun _ => rfl)

/-- C10: the failing aggregate is produced by string formatting alone: its
message is exactly the sentinel's text, ": ", then the buffer of per-location
failure messages each terminated by ";"; it unwraps to nothing, and
`errors.Is`-style matching finds neither `ErrWait` nor any per-location
failure along its (empty) cause chain — only textual containment holds. -/
theorem c10_aggregate_not_wrapped (r : Runner) (parse : String → Except GoError URL)
    (ctxDone : Nat → Bool) (resources : List String) (setters : List OptionSetter)
    (fuel : Nat) (results : List TestResult) (res0 : TestResult)
    (h : r.testAllInternal parse ctxDone resources (newOptions setters) fuel
      = some results)
    (hmem : res0 ∈ results) (hne : res0.error ≠ none) :
    r.Test parse ctxDone resources setters fuel
      = some (some (.errorf (ErrWait.msg ++ ": " ++ buffOf results))) ∧
    (GoError.errorf (ErrWait.msg ++ ": " ++ buffOf results)).msg
      = ErrWait.msg ++ ": " ++ buffOf results ∧
    (GoError.errorf (ErrWait.msg ++ ": " ++ buffOf results)).unwrap = none ∧
    errorsIs (.errorf (ErrWait.msg ++ ": " ++ buffOf results)) ErrWait = false ∧
    (∀ pe, (∃ res ∈ results, res.error = some pe) →
        errorsIs (.errorf (ErrWait.msg ++ ": " ++ buffOf results)) pe = false) := by
  have hb : buffOf results ≠ "" := fun hb0 =>
    hne (buffOf_empty_iff.mp hb0 res0 hmem)
  refine ⟨?_, rfl, rfl, ?_, ?_⟩
  · simp only [Runner.Test, h]
    rw [if_neg hb]
  · simp [errorsIs, ErrWait]
  · intro pe hpe
    have hlt : pe.msg.length < (ErrWait.msg ++ ": " ++ buffOf results).length := by
      have h1 := msg_length_le_buffOf results pe hpe
      rw [String.length_append, String.length_append]
      omega
    have hne2 : GoError.errorf (ErrWait.msg ++ ": " ++ buffOf results) ≠ pe := by
      intro hEq
      rw [← hEq] at hlt
      simp only [GoError.msg] at hlt
      omega
    simp only [errorsIs]
    rw [if_neg hne2]

/-- C10 witness: `c10_aggregate_not_wrapped` on a concrete failing run. -/
theorem c10_aggregate_not_wrapped_witness :
    Runner.Test ⟨demoRegistry⟩ demoParse (fun _ => false) ["down://b"]
        [WithAttempts 1] 1
      = some (some (.errorf (ErrWait.msg ++ ": "
          ++ buffOf [⟨some (.errorf "resource not available"), 1⟩]))) ∧
    errorsIs (.errorf (ErrWait.msg ++ ": "
        ++ buffOf [⟨some (.errorf "resource not available"), 1⟩])) ErrWait = false ∧
    errorsIs (.errorf (ErrWait.msg ++ ": "
        ++ buffOf [⟨some (.errorf "resource not available"), 1⟩]))
      (.errorf "resource not available") = false := by
  have hthm := c10_aggregate_not_wrapped ⟨demoRegistry⟩ demoParse (fun _ => false)
    ["down://b"] [WithAttempts 1] 1 [⟨some (.errorf "resource not available"), 1⟩]
    ⟨some (.errorf "resource not available"), 1⟩ (by rfl) (by simp) (by simp)
  exact ⟨hthm.1, hthm.2.2.2.1, hthm.2.2.2.2 (.errorf "resource not available")
    ⟨⟨some (.errorf "resource not available"), 1⟩, by simp, rfl⟩⟩

/-- C6: `Run` executes the program's executable exactly when `Test` on the
program's resources succeeds: a `Test` failure is returned as-is with no
output and the executable is never started; on success the executable runs
and `CombinedOutput`'s output and error are returned as-is, so an execution
failure is returned unchanged and is never conflated with a resource-wait
failure. -/
theorem c6_run_gates_execution (r : Runner) (parse : String → Except GoError URL)
    (ctxDone : Nat → Bool) (program : Program) (setters : List OptionSetter)
    (runExec : String → List String → ExecResult) (fuel : Nat) :
    (∀ e, r.Test parse ctxDone program.resources setters fuel = some (some e) →
        r.Run parse ctxDone program setters runExec fuel
          = some ⟨none, some e, false⟩) ∧
    (r.Test parse ctxDone program.resources setters fuel = some none →
        r.Run parse ctxDone program setters runExec fuel
          = some ⟨some (runExec program.executable program.args).output,
              (runExec program.executable program.args).error, true⟩) := by
  constructor
  · intro e h
    simp only [Runner.Run, h]
  · intro h
    simp only [Runner.Run, h]

/-- C6 witness: `c6_run_gates_execution` with a failing and a succeeding
resource set, under an executable producing "hello" and no error. -/
theorem c6_run_gates_execution_witness :
    Runner.Run ⟨demoRegistry⟩ demoParse (fun _ => false)
        ⟨"echo", ["hello"], ["down://b"]⟩ [WithAttempts 1]
        (fun _ _ => ⟨"hello", none⟩) 1
      = some ⟨none, some (.errorf (ErrWait.msg ++ ": "
          ++ ("resource not available" ++ ";"))), false⟩ ∧
    Runner.Run ⟨demoRegistry⟩ demoParse (fun _ => false)
        ⟨"echo", ["hello"], ["up://a"]⟩ [WithAttempts 1]
        (fun _ _ => ⟨"hello", none⟩) 1
      = some ⟨some "hello", none, true⟩ := by
  constructor
  · exact (c6_run_gates_execution ⟨demoRegistry⟩ demoParse (fun _ => false)
      ⟨"echo", ["hello"], ["down://b"]⟩ [WithAttempts 1]
      (fun _ _ => ⟨"hello", none⟩) 1).1
      (.errorf (ErrWait.msg ++ ": " ++ ("resource not available" ++ ";"))) (by rfl)
  · exact (c6_run_gates_execution ⟨demoRegistry⟩ demoParse (fun _ => false)
      ⟨"echo", ["hello"], ["up://a"]⟩ [WithAttempts 1]
      (fun _ _ => ⟨"hello", none⟩) 1).2 (by rfl)
